import Mathlib

/-!
Shallow embedding of `src/Progs/individual.py`, a small CLI that stores
travel routes in an SQLite file with two tables:

* `start (name_id INTEGER PRIMARY KEY AUTOINCREMENT, start_point TEXT NOT NULL)`
* `route (route_id INTEGER PRIMARY KEY AUTOINCREMENT, name_id INTEGER NOT NULL,
   first_station TEXT NOT NULL, second_station TEXT NOT NULL,
   FOREIGN KEY(name_id) REFERENCES start(name_id))`

The store is modelled as the pair of tables; a table that has not been
created yet is `none` (`CREATE TABLE IF NOT EXISTS` turns it into
`some []`).  Since the program never deletes rows, SQLite's
AUTOINCREMENT row id allocation coincides with `max existing id + 1`.
Operations that run SQL against a possibly-missing table return
`Option` (`none` = the sqlite3 call raises).  The SELECT-returning
operations are given in state-passing style (they return the resulting
store together with the fetched rows) so that their frame behaviour is
a statement, not a modelling artefact.
-/

namespace Individual

/-- A row of the `start` table. -/
structure StartRow where
  name_id : Nat
  start_point : String
deriving DecidableEq, Repr

/-- A row of the `route` table. -/
structure RouteRow where
  route_id : Nat
  name_id : Nat
  first_station : String
  second_station : String
deriving DecidableEq, Repr

/-- The whole SQLite file: each table is `none` until created. -/
structure Store where
  start_tbl : Option (List StartRow)
  route_tbl : Option (List RouteRow)
deriving DecidableEq, Repr

/-- A record returned by `select_all` / `select_route`: the Python code
builds a dict with keys `start_point`, `first_station`, `second_station`. -/
structure RouteRecord where
  start_point : String
  first_station : String
  second_station : String
deriving DecidableEq, Repr

/-- A database file that does not exist yet (no tables). -/
def emptyStore : Store := ⟨none, none⟩

/-- The row id SQLite AUTOINCREMENT assigns to the next inserted row,
given the ids already in the table (valid because this program never
deletes rows). -/
def nextId (ids : List Nat) : Nat := ids.foldr max 0 + 1

/-- Embedding of `create_db`: runs `CREATE TABLE IF NOT EXISTS` for `start` and for
`route`; an existing table is left untouched, a missing one becomes empty. -/
def create_db (s : Store) : Store :=
  ⟨some (s.start_tbl.getD []), some (s.route_tbl.getD [])⟩

/-- Embedding of `add_route(database_path, first, second)`:
`SELECT name_id FROM start WHERE start_point = ?` and `fetchone()`;
if no row, `INSERT INTO start (start_point) VALUES (?)` and take
`lastrowid`; then `INSERT INTO route (name_id, first_station,
second_station) VALUES (?, ?, ?)` with `(name_id, first, second)`.
`none` when a table is missing (the sqlite3 call raises and nothing
is committed). -/
def add_route (s : Store) (first second : String) : Option Store :=
  match s.start_tbl, s.route_tbl with
  | some starts, some routes =>
    match (starts.filter (fun r => r.start_point = first)).head? with
    | some r =>
        some ⟨some starts,
              some (routes ++
                [⟨nextId (routes.map RouteRow.route_id), r.name_id, first, second⟩])⟩
    | none =>
        let nid := nextId (starts.map StartRow.name_id)
        some ⟨some (starts ++ [⟨nid, first⟩]),
              some (routes ++
                [⟨nextId (routes.map RouteRow.route_id), nid, first, second⟩])⟩
  | _, _ => none

/-- Embedding of `select_all(database_path)`:
`SELECT start.start_point, route.first_station, route.second_station
FROM route INNER JOIN start ON start.name_id = route.name_id`,
then each fetched row is packed into a dict.  Returned in state-passing
style: the store after the call together with the fetched records. -/
def select_all (s : Store) : Option (Store × List RouteRecord) :=
  match s.start_tbl, s.route_tbl with
  | some starts, some routes =>
    some (s, routes.flatMap (fun rt =>
      (starts.filter (fun st => st.name_id = rt.name_id)).map
        (fun st => ⟨st.start_point, rt.first_station, rt.second_station⟩)))
  | _, _ => none

/-- Embedding of `select_route(database_path, find_end)`: the same join with
`WHERE route.second_station = ?` (the predicate only reads `route`
columns, so it filters the outer `route` scan). -/
def select_route (s : Store) (find_end : String) :
    Option (Store × List RouteRecord) :=
  match s.start_tbl, s.route_tbl with
  | some starts, some routes =>
    some (s, (routes.filter (fun rt => rt.second_station = find_end)).flatMap
      (fun rt =>
        (starts.filter (fun st => st.name_id = rt.name_id)).map
          (fun st => ⟨st.start_point, rt.first_station, rt.second_station⟩)))
  | _, _ => none

/-- Python `"{:^w}".format(s)`: centre `s` in width `w`, extra space on
the right; a string at least `w` long is unchanged. -/
def pyCenter (s : String) (w : Nat) : String :=
  if w ≤ s.length then s
  else
    let pad := w - s.length
    let l := pad / 2
    String.mk (List.replicate l ' ') ++ s ++ String.mk (List.replicate (pad - l) ' ')

/-- The row/header format string `"| {:^4} | {:^30} | {:^20} |"`. -/
def fmt3 (a b c : String) : String :=
  "| " ++ pyCenter a 4 ++ " | " ++ pyCenter b 30 ++ " | " ++ pyCenter c 20 ++ " |"

/-- The horizontal border `"+-{}-+-{}-+-{}-+".format("-"*4, "-"*30, "-"*20)`. -/
def borderLine : String :=
  "+-" ++ String.mk (List.replicate 4 '-') ++ "-+-" ++
    String.mk (List.replicate 30 '-') ++ "-+-" ++
    String.mk (List.replicate 20 '-') ++ "-+"

/-- The header row printed by `display_routes`. -/
def headerLine : String := fmt3 "№" "Место отправки" "Место прибытия"

/-- The message printed for an empty list of routes. -/
def emptyMsg : String := "Список маршрутов пуст."

/-- The body of the `for id, station in enumerate(routes, k)` loop of
`display_routes`: for each record, a data row showing the 1-based
counter, `station.get("start_point", "")` and
`station.get("second_station", "")`, followed by a border line. -/
def dataLines (k : Nat) (routes : List RouteRecord) : List String :=
  (List.enumFrom k routes).flatMap
    (fun p => [fmt3 (toString p.1) p.2.start_point p.2.second_station,
               borderLine])

/-- Embedding of `display_routes(routes)`: the list of lines printed.  For a
non-empty list: border, header, border, then the loop over
`enumerate(routes, 1)`.  For an empty list: the localized empty message. -/
def display_routes (routes : List RouteRecord) : List String :=
  if routes = [] then [emptyMsg]
  else [borderLine, headerLine, borderLine] ++ dataLines 1 routes

/-- Stores reachable by the program: every command first runs
`create_db` on the file (which may not exist yet, `emptyStore`), then
performs one repository operation. -/
inductive Reachable : Store → Prop where
  | init : Reachable (create_db emptyStore)
  | createdb {s : Store} : Reachable s → Reachable (create_db s)
  | add {s s' : Store} {f x : String} :
      Reachable s → add_route s f x = some s' → Reachable s'
  | selAll {s s' : Store} {l : List RouteRecord} :
      Reachable s → select_all s = some (s', l) → Reachable s'
  | selRoute {s s' : Store} {x : String} {l : List RouteRecord} :
      Reachable s → select_route s x = some (s', l) → Reachable s'

/-! ### Concrete stores used to instantiate the universally quantified results -/

/-- The store after `add "A" "B"` on a fresh database. -/
def sAB : Store := ⟨some [⟨1, "A"⟩], some [⟨1, 1, "A", "B"⟩]⟩

/-- The store after `add "A" "B"` then `add "A" "C"` on a fresh database. -/
def sABC : Store := ⟨some [⟨1, "A"⟩], some [⟨1, 1, "A", "B"⟩, ⟨2, 1, "A", "C"⟩]⟩

theorem add_route_empty_eq : add_route (create_db emptyStore) "A" "B" = some sAB := by
  decide

theorem add_route_sAB_eq : add_route sAB "A" "C" = some sABC := by
  decide

theorem reachable_sAB : Reachable sAB :=
  Reachable.add Reachable.init add_route_empty_eq

theorem reachable_sABC : Reachable sABC :=
  Reachable.add reachable_sAB add_route_sAB_eq

/-! ### Helper lemmas -/

/-- Every id in the table is at most the running maximum. -/
theorem le_foldr_max (ids : List Nat) (n : Nat) (h : n ∈ ids) :
    n ≤ ids.foldr max 0 := by
  induction ids with
  | nil => cases h
  | cons a l ih =>
    rcases List.mem_cons.mp h with rfl | h
    · exact le_max_left _ _
    · exact le_trans (ih h) (le_max_right _ _)

/-- The freshly allocated id is unused. -/
theorem nextId_not_mem (ids : List Nat) : nextId ids ∉ ids := by
  intro h
  have := le_foldr_max ids _ h
  simp only [nextId] at this
  omega

/-- A successful `select_all` returns the store it was given. -/
theorem select_all_state {s s' : Store} {l : List RouteRecord}
    (h : select_all s = some (s', l)) : s' = s := by
  unfold select_all at h
  cases hst : s.start_tbl with
  | none => rw [hst] at h; cases h
  | some starts =>
    cases hrt : s.route_tbl with
    | none => rw [hst, hrt] at h; cases h
    | some routes =>
      rw [hst, hrt] at h
      injection h with h
      exact (congrArg Prod.fst h).symm

/-- A successful `select_route` returns the store it was given. -/
theorem select_route_state {s s' : Store} {x : String} {l : List RouteRecord}
    (h : select_route s x = some (s', l)) : s' = s := by
  unfold select_route at h
  cases hst : s.start_tbl with
  | none => rw [hst] at h; cases h
  | some starts =>
    cases hrt : s.route_tbl with
    | none => rw [hst, hrt] at h; cases h
    | some routes =>
      rw [hst, hrt] at h
      injection h with h
      exact (congrArg Prod.fst h).symm

/-! ### The claims -/

/-- C4.  `create_db` is idempotent: a second call on the same file
yields the same store as one call; after one call both tables exist,
and the `start`/`route` rows of the original store (or none, for a
table that did not exist) are exactly the rows after the call, so the
second call loses no data and creates no duplicate table. -/
theorem create_db_idempotent (s : Store) :
    create_db (create_db s) = create_db s ∧
    (create_db s).start_tbl = some (s.start_tbl.getD []) ∧
    (create_db s).route_tbl = some (s.route_tbl.getD []) :=
  ⟨rfl, rfl, rfl⟩

/-- C8.  On the empty list of route records, `display_routes` prints
exactly the localized "list is empty" message, and in particular no
border line and no header row. -/
theorem display_routes_empty :
    display_routes [] = [emptyMsg] ∧
    borderLine ∉ display_routes [] ∧ headerLine ∉ display_routes [] := by
  refine ⟨rfl, ?_, ?_⟩ <;> decide

/-- C10.  `select_all` and `select_route` are read-only: whenever they
succeed, the store they leave behind is exactly the store they were
given. -/
theorem select_ops_read_only (s : Store) (x : String)
    (p q : Store × List RouteRecord)
    (h1 : select_all s = some p) (h2 : select_route s x = some q) :
    p.1 = s ∧ q.1 = s := by
  obtain ⟨p1, p2⟩ := p
  obtain ⟨q1, q2⟩ := q
  exact ⟨select_all_state h1, select_route_state h2⟩

/-- C10, witness: instantiated on the store holding the single route
("A", "B") and destination "C". -/
theorem select_ops_read_only_witness :
    select_all sAB = some (sAB, [⟨"A", "A", "B"⟩]) ∧
    select_route sAB "C" = some (sAB, []) ∧
    (sAB, [(⟨"A", "A", "B"⟩ : RouteRecord)]).1 = sAB ∧ (sAB, ([] : List RouteRecord)).1 = sAB :=
  ⟨rfl, rfl, select_ops_read_only sAB "C" _ _ rfl rfl⟩

/-- Filtering the `route` scan on the destination before the join is
the same as joining first and filtering the produced records: the
record's `second_station` field is copied from the `route` row. -/
theorem filter_flatMap_join (starts : List StartRow) (x : String)
    (routes : List RouteRow) :
    (routes.filter (fun rt => rt.second_station = x)).flatMap
        (fun rt => (starts.filter (fun st => st.name_id = rt.name_id)).map
          (fun st => (⟨st.start_point, rt.first_station, rt.second_station⟩ :
            RouteRecord)))
      =
    (routes.flatMap
        (fun rt => (starts.filter (fun st => st.name_id = rt.name_id)).map
          (fun st => (⟨st.start_point, rt.first_station, rt.second_station⟩ :
            RouteRecord)))).filter (fun r => r.second_station = x) := by
  induction routes with
  | nil => rfl
  | cons rt rest ih =>
    rw [List.flatMap_cons, List.filter_append, ← ih]
    by_cases h : rt.second_station = x
    · rw [List.filter_cons_of_pos (by simp [h]), List.flatMap_cons]
      congr 1
      symm
      rw [List.filter_eq_self]
      intro a ha
      simp only [List.mem_map] at ha
      obtain ⟨st, _, rfl⟩ := ha
      simp [h]
    · rw [List.filter_cons_of_neg (by simp [h])]
      have he : (List.filter (fun r => decide (r.second_station = x))
          ((starts.filter (fun st => st.name_id = rt.name_id)).map
            (fun st => (⟨st.start_point, rt.first_station, rt.second_station⟩ :
              RouteRecord)))) = [] := by
        rw [List.filter_eq_nil_iff]
        intro a ha
        simp only [List.mem_map] at ha
        obtain ⟨st, _, rfl⟩ := ha
        simp [h]
      rw [he, List.nil_append]

/-- C3.  `select_route path X` returns exactly the records of
`select_all path` whose `second_station` equals `X` (exact string
equality), with unchanged field values, and the same resulting store. -/
theorem select_route_eq_select_all_filter (s : Store) (x : String) :
    select_route s x = (select_all s).map
      (fun p => (p.1, p.2.filter (fun r => r.second_station = x))) := by
  cases hst : s.start_tbl with
  | none => simp [select_route, select_all, hst]
  | some starts =>
    cases hrt : s.route_tbl with
    | none => simp [select_route, select_all, hst, hrt]
    | some routes =>
      simp only [select_route, select_all, hst, hrt, Option.map_some']
      exact congrArg (fun l => some (s, l)) (filter_flatMap_join starts x routes)

/-- Inversion for a successful `add_route`: both tables existed, and
the result is one of the two branches of the `fetchone()` test. -/
theorem add_route_eq {s s' : Store} {f x : String}
    (h : add_route s f x = some s') :
    ∃ starts routes, s.start_tbl = some starts ∧ s.route_tbl = some routes ∧
      ((∃ r, (starts.filter (fun t => t.start_point = f)).head? = some r ∧
          s' = ⟨some starts,
                some (routes ++
                  [⟨nextId (routes.map RouteRow.route_id), r.name_id, f, x⟩])⟩) ∨
       ((starts.filter (fun t => t.start_point = f)).head? = none ∧
          s' = ⟨some (starts ++ [⟨nextId (starts.map StartRow.name_id), f⟩]),
                some (routes ++
                  [⟨nextId (routes.map RouteRow.route_id),
                    nextId (starts.map StartRow.name_id), f, x⟩])⟩)) := by
  obtain ⟨stbl, rtbl⟩ := s
  cases stbl with
  | none => simp [add_route] at h
  | some starts =>
    cases rtbl with
    | none => simp [add_route] at h
    | some routes =>
      refine ⟨starts, routes, rfl, rfl, ?_⟩
      cases hf : (starts.filter (fun t => t.start_point = f)).head? with
      | some r =>
        simp only [add_route, hf] at h
        injection h with h
        exact Or.inl ⟨r, rfl, h.symm⟩
      | none =>
        simp only [add_route, hf] at h
        injection h with h
        exact Or.inr ⟨rfl, h.symm⟩

/-- C1.  After a successful `add_route path first second`, the records
returned by `select_all path` contain one whose `start_point` equals
`first` and whose `second_station` equals `second`. -/
theorem add_route_then_select_all_contains (s s' : Store) (f x : String)
    (h : add_route s f x = some s') :
    ∃ p, select_all s' = some p ∧
      ∃ r ∈ p.2, r.start_point = f ∧ r.second_station = x := by
  obtain ⟨starts, routes, hst, hrt, hcase⟩ := add_route_eq h
  rcases hcase with ⟨r, hr, rfl⟩ | ⟨hnone, rfl⟩
  · have hrmem : r ∈ starts.filter (fun t => t.start_point = f) :=
      List.mem_of_mem_head? (by rw [hr]; rfl)
    rw [List.mem_filter] at hrmem
    have hrf : r.start_point = f := by simpa using hrmem.2
    refine ⟨_, rfl, ⟨r.start_point, f, x⟩, ?_, hrf, rfl⟩
    simp only [List.mem_flatMap]
    refine ⟨⟨nextId (routes.map RouteRow.route_id), r.name_id, f, x⟩,
      List.mem_append_right _ (List.mem_singleton.mpr rfl), ?_⟩
    simp only [List.mem_map]
    exact ⟨r, by simp [List.mem_filter, hrmem.1], rfl⟩
  · refine ⟨_, rfl, ⟨f, f, x⟩, ?_, rfl, rfl⟩
    simp only [List.mem_flatMap]
    refine ⟨⟨nextId (routes.map RouteRow.route_id),
      nextId (starts.map StartRow.name_id), f, x⟩,
      List.mem_append_right _ (List.mem_singleton.mpr rfl), ?_⟩
    simp only [List.mem_map]
    exact ⟨⟨nextId (starts.map StartRow.name_id), f⟩,
      by simp [List.mem_filter, List.mem_append], rfl⟩

/-- C1, witness: adding ("A", "B") to a freshly initialized store. -/
theorem add_route_then_select_all_contains_witness :
    add_route (create_db emptyStore) "A" "B" = some sAB ∧
    ∃ p, select_all sAB = some p ∧
      ∃ r ∈ p.2, r.start_point = "A" ∧ r.second_station = "B" :=
  ⟨add_route_empty_eq,
   add_route_then_select_all_contains _ sAB "A" "B" add_route_empty_eq⟩

/-- C7.  A successful `add_route path first second` only appends rows:
it appends exactly one `route` row carrying (`first`, `second`); the
`start` table is unchanged when some `start` row already has
`start_point = first`, and has exactly one new row with
`start_point = first` appended otherwise.  All pre-existing rows
survive unmodified, in place. -/
theorem add_route_frame (s s' : Store) (f x : String)
    (h : add_route s f x = some s') :
    ∃ starts routes, s.start_tbl = some starts ∧ s.route_tbl = some routes ∧
      (∃ rt : RouteRow, rt.first_station = f ∧ rt.second_station = x ∧
        s'.route_tbl = some (routes ++ [rt])) ∧
      (((∃ st ∈ starts, st.start_point = f) ∧ s'.start_tbl = some starts) ∨
       ((¬∃ st ∈ starts, st.start_point = f) ∧
        ∃ st : StartRow, st.start_point = f ∧
          s'.start_tbl = some (starts ++ [st]))) := by
  obtain ⟨starts, routes, hst, hrt, hcase⟩ := add_route_eq h
  rcases hcase with ⟨r, hr, rfl⟩ | ⟨hnone, rfl⟩
  · have hrmem : r ∈ starts.filter (fun t => t.start_point = f) :=
      List.mem_of_mem_head? (by rw [hr]; rfl)
    rw [List.mem_filter] at hrmem
    have hrf : r.start_point = f := by simpa using hrmem.2
    exact ⟨starts, routes, hst, hrt, ⟨_, rfl, rfl, rfl⟩,
      Or.inl ⟨⟨r, hrmem.1, hrf⟩, rfl⟩⟩
  · rw [List.head?_eq_none_iff, List.filter_eq_nil_iff] at hnone
    refine ⟨starts, routes, hst, hrt, ⟨_, rfl, rfl, rfl⟩,
      Or.inr ⟨?_, ⟨nextId (starts.map StartRow.name_id), f⟩, rfl, rfl⟩⟩
    rintro ⟨st, hmem, hpt⟩
    exact hnone st hmem (by simp [hpt])

/-- C7, witness: adding ("A", "C") to the store already holding the
route ("A", "B") reuses the existing origin row. -/
theorem add_route_frame_witness :
    add_route sAB "A" "C" = some sABC ∧
    ∃ starts routes, sAB.start_tbl = some starts ∧ sAB.route_tbl = some routes ∧
      (∃ rt : RouteRow, rt.first_station = "A" ∧ rt.second_station = "C" ∧
        sABC.route_tbl = some (routes ++ [rt])) ∧
      (((∃ st ∈ starts, st.start_point = "A") ∧ sABC.start_tbl = some starts) ∨
       ((¬∃ st ∈ starts, st.start_point = "A") ∧
        ∃ st : StartRow, st.start_point = "A" ∧
          sABC.start_tbl = some (starts ++ [st]))) :=
  ⟨add_route_sAB_eq, add_route_frame sAB sABC "A" "C" add_route_sAB_eq⟩

/-- The data-layer invariant maintained by the program: origin texts
are unique, origin ids are unique, every route references an existing
origin, and a route's `first_station` agrees with the `start_point` of
any origin row carrying its `name_id`. -/
def storeInv (s : Store) : Prop :=
  ((s.start_tbl.getD []).map StartRow.start_point).Nodup ∧
  ((s.start_tbl.getD []).map StartRow.name_id).Nodup ∧
  (∀ rt ∈ s.route_tbl.getD [], ∃ st ∈ s.start_tbl.getD [],
    st.name_id = rt.name_id) ∧
  (∀ rt ∈ s.route_tbl.getD [], ∀ st ∈ s.start_tbl.getD [],
    st.name_id = rt.name_id → st.start_point = rt.first_station)

/-- Inversion for a successful `select_all`. -/
theorem select_all_eq {s : Store} {p : Store × List RouteRecord}
    (h : select_all s = some p) :
    ∃ starts routes, s.start_tbl = some starts ∧ s.route_tbl = some routes ∧
      p = (s, routes.flatMap
        (fun rt => (starts.filter (fun st => st.name_id = rt.name_id)).map
          (fun st => ⟨st.start_point, rt.first_station, rt.second_station⟩))) := by
  cases hst : s.start_tbl with
  | none => simp [select_all, hst] at h
  | some starts =>
    cases hrt : s.route_tbl with
    | none => simp [select_all, hst, hrt] at h
    | some routes =>
      simp only [select_all, hst, hrt] at h
      injection h with h
      exact ⟨starts, routes, rfl, rfl, h.symm⟩

/-- Inversion for a successful `select_route`. -/
theorem select_route_eq {s : Store} {x : String} {p : Store × List RouteRecord}
    (h : select_route s x = some p) :
    ∃ starts routes, s.start_tbl = some starts ∧ s.route_tbl = some routes ∧
      p = (s, (routes.filter (fun rt => rt.second_station = x)).flatMap
        (fun rt => (starts.filter (fun st => st.name_id = rt.name_id)).map
          (fun st => ⟨st.start_point, rt.first_station, rt.second_station⟩))) := by
  cases hst : s.start_tbl with
  | none => simp [select_route, hst] at h
  | some starts =>
    cases hrt : s.route_tbl with
    | none => simp [select_route, hst, hrt] at h
    | some routes =>
      simp only [select_route, hst, hrt] at h
      injection h with h
      exact ⟨starts, routes, rfl, rfl, h.symm⟩

/-- Every reachable store satisfies the data-layer invariant. -/
theorem storeInv_reachable {s : Store} (h : Reachable s) : storeInv s := by
  induction h with
  | init => simp [storeInv, create_db, emptyStore]
  | createdb h ih => simpa [storeInv, create_db] using ih
  | @add s s' f x h heq ih =>
    obtain ⟨starts, routes, hst, hrt, hcase⟩ := add_route_eq heq
    simp only [storeInv, hst, hrt, Option.getD_some] at ih
    obtain ⟨ih1, ih2, ih3, ih4⟩ := ih
    rcases hcase with ⟨r, hr, rfl⟩ | ⟨hnone, rfl⟩
    · -- origin found: the start table is unchanged
      simp only [storeInv, Option.getD_some]
      have hrmem : r ∈ starts.filter (fun t => t.start_point = f) :=
        List.mem_of_mem_head? (by rw [hr]; rfl)
      rw [List.mem_filter] at hrmem
      have hrf : r.start_point = f := by simpa using hrmem.2
      refine ⟨ih1, ih2, ?_, ?_⟩
      · intro rt hmem
        rcases List.mem_append.mp hmem with hmem | hmem
        · exact ih3 rt hmem
        · rw [List.mem_singleton.mp hmem]
          exact ⟨r, hrmem.1, rfl⟩
      · intro rt hmem st hstmem hid
        rcases List.mem_append.mp hmem with hmem | hmem
        · exact ih4 rt hmem st hstmem hid
        · rw [List.mem_singleton.mp hmem] at hid ⊢
          have : st = r :=
            List.inj_on_of_nodup_map ih2 hstmem hrmem.1 hid
          rw [this, hrf]
    · -- origin absent: a fresh origin row is appended
      simp only [storeInv, Option.getD_some]
      have hfil : starts.filter (fun t => t.start_point = f) = [] :=
        List.head?_eq_none_iff.mp hnone
      have hnof : ∀ st ∈ starts, ¬st.start_point = f := by
        intro st hmem hp
        have := List.filter_eq_nil_iff.mp hfil st hmem
        simp [hp] at this
      have hfresh : nextId (starts.map StartRow.name_id) ∉
          starts.map StartRow.name_id := nextId_not_mem _
      refine ⟨?_, ?_, ?_, ?_⟩
      · rw [List.map_append, List.nodup_append]
        refine ⟨ih1, List.nodup_singleton _, ?_⟩
        intro a ha hb
        rw [List.mem_map] at ha
        obtain ⟨st, hmem, rfl⟩ := ha
        exact hnof st hmem (List.mem_singleton.mp hb)
      · rw [List.map_append, List.nodup_append]
        refine ⟨ih2, List.nodup_singleton _, ?_⟩
        intro a ha hb
        rw [List.mem_singleton.mp hb] at ha
        exact hfresh ha
      · intro rt hmem
        rcases List.mem_append.mp hmem with hmem | hmem
        · obtain ⟨st, hstmem, hid⟩ := ih3 rt hmem
          exact ⟨st, List.mem_append_left _ hstmem, hid⟩
        · rw [List.mem_singleton.mp hmem]
          exact ⟨⟨nextId (starts.map StartRow.name_id), f⟩,
            List.mem_append_right _ (List.mem_singleton.mpr rfl), rfl⟩
      · intro rt hmem st hstmem hid
        rcases List.mem_append.mp hmem with hmem | hmem
        · rcases List.mem_append.mp hstmem with hstmem | hstmem
          · exact ih4 rt hmem st hstmem hid
          · exfalso
            rw [List.mem_singleton.mp hstmem] at hid
            obtain ⟨st0, hst0mem, hid0⟩ := ih3 rt hmem
            refine hfresh ?_
            rw [List.mem_map]
            exact ⟨st0, hst0mem, by rw [hid0, ← hid]⟩
        · rw [List.mem_singleton.mp hmem] at hid ⊢
          rcases List.mem_append.mp hstmem with hstmem | hstmem
          · exfalso
            refine hfresh ?_
            rw [List.mem_map]
            exact ⟨st, hstmem, hid⟩
          · rw [List.mem_singleton.mp hstmem]
  | selAll h heq ih => rw [select_all_state heq]; exact ih
  | selRoute h heq ih => rw [select_route_state heq]; exact ih

/-- C2.  In every reachable store the origin texts are unique, and
adding two routes with the same `first` value leaves the `start` table
of the first addition unchanged (only one origin row is ever created
for that text) while the two freshly inserted route rows carry the
same origin identifier. -/
theorem origin_texts_unique (s : Store) (h : Reachable s) :
    ((s.start_tbl.getD []).map StartRow.start_point).Nodup ∧
    ∀ f x y s1 s2, add_route s f x = some s1 → add_route s1 f y = some s2 →
      s2.start_tbl = s1.start_tbl ∧
      ∃ r1 r2, (s1.route_tbl.getD []).getLast? = some r1 ∧
        (s2.route_tbl.getD []).getLast? = some r2 ∧
        r1.name_id = r2.name_id := by
  refine ⟨(storeInv_reachable h).1, ?_⟩
  intro f x y s1 s2 h1 h2
  obtain ⟨starts, routes, hst, hrt, hcase⟩ := add_route_eq h1
  rcases hcase with ⟨r, hr, rfl⟩ | ⟨hnone, rfl⟩
  · simp only [add_route, hr] at h2
    injection h2 with h2
    rw [← h2]
    exact ⟨rfl, _, _, List.getLast?_concat _, List.getLast?_concat _, rfl⟩
  · have hfil : starts.filter (fun t => t.start_point = f) = [] :=
      List.head?_eq_none_iff.mp hnone
    have hlook : ((starts ++
        [(⟨nextId (starts.map StartRow.name_id), f⟩ : StartRow)]).filter
          (fun t => t.start_point = f)).head? =
        some (⟨nextId (starts.map StartRow.name_id), f⟩ : StartRow) := by
      rw [List.filter_append, hfil, List.nil_append]
      simp
    simp only [add_route, hlook] at h2
    injection h2 with h2
    rw [← h2]
    exact ⟨rfl, _, _, List.getLast?_concat _, List.getLast?_concat _, rfl⟩

/-- C2, witness: instantiated on the reachable store holding the
single route ("A", "B"), then adding ("A", "B2") and ("A", "C2"). -/
theorem origin_texts_unique_witness :
    Reachable sAB ∧
    (((sAB.start_tbl.getD []).map StartRow.start_point).Nodup ∧
     ∀ f x y s1 s2, add_route sAB f x = some s1 → add_route s1 f y = some s2 →
       s2.start_tbl = s1.start_tbl ∧
       ∃ r1 r2, (s1.route_tbl.getD []).getLast? = some r1 ∧
         (s2.route_tbl.getD []).getLast? = some r2 ∧
         r1.name_id = r2.name_id) :=
  ⟨reachable_sAB, origin_texts_unique sAB reachable_sAB⟩

/-- C6.  Referential integrity holds in every store reachable from an
initialized empty store by the program's operations: every `route`
row's `name_id` is the `name_id` of an existing `start` row. -/
theorem routes_reference_existing_origin (s : Store) (h : Reachable s) :
    ∀ rt ∈ s.route_tbl.getD [], ∃ st ∈ s.start_tbl.getD [],
      st.name_id = rt.name_id :=
  (storeInv_reachable h).2.2.1

/-- C6, witness: instantiated on the reachable store holding the two
routes ("A", "B") and ("A", "C"). -/
theorem routes_reference_existing_origin_witness :
    Reachable sABC ∧
    ∀ rt ∈ sABC.route_tbl.getD [], ∃ st ∈ sABC.start_tbl.getD [],
      st.name_id = rt.name_id :=
  ⟨reachable_sABC, routes_reference_existing_origin sABC reachable_sABC⟩

/-- C9.  In every reachable store a route's `first_station` agrees
with the `start_point` of the origin row it references; hence every
record returned by `select_all` or `select_route` has
`start_point = first_station`, and rendering the records with
`start_point` replaced by `first_station` prints exactly the same
lines. -/
theorem start_point_eq_first_station (s : Store) (h : Reachable s) :
    (∀ rt ∈ s.route_tbl.getD [], ∀ st ∈ s.start_tbl.getD [],
      st.name_id = rt.name_id → st.start_point = rt.first_station) ∧
    (∀ p, select_all s = some p →
      ∀ r ∈ p.2, r.start_point = r.first_station) ∧
    (∀ x p, select_route s x = some p →
      ∀ r ∈ p.2, r.start_point = r.first_station) ∧
    (∀ p, select_all s = some p →
      display_routes (p.2.map
        (fun r => ⟨r.first_station, r.first_station, r.second_station⟩)) =
      display_routes p.2) := by
  have main := (storeInv_reachable h).2.2.2
  have hsa : ∀ p, select_all s = some p →
      ∀ r ∈ p.2, r.start_point = r.first_station := by
    intro p hp r hr
    obtain ⟨starts, routes, hst, hrt, rfl⟩ := select_all_eq hp
    simp only [hst, hrt, Option.getD_some] at main
    simp only [List.mem_flatMap, List.mem_map, List.mem_filter] at hr
    obtain ⟨rt, hrtmem, st, ⟨hstmem, hid⟩, rfl⟩ := hr
    exact main rt hrtmem st hstmem (by simpa using hid)
  have hsr : ∀ x p, select_route s x = some p →
      ∀ r ∈ p.2, r.start_point = r.first_station := by
    intro x p hp r hr
    obtain ⟨starts, routes, hst, hrt, rfl⟩ := select_route_eq hp
    simp only [hst, hrt, Option.getD_some] at main
    simp only [List.mem_flatMap, List.mem_map, List.mem_filter] at hr
    obtain ⟨rt, ⟨hrtmem, _⟩, st, ⟨hstmem, hid⟩, rfl⟩ := hr
    exact main rt hrtmem st hstmem (by simpa using hid)
  refine ⟨main, hsa, hsr, ?_⟩
  intro p hp
  have : p.2.map (fun r =>
      (⟨r.first_station, r.first_station, r.second_station⟩ : RouteRecord)) =
      p.2 := by
    rw [show p.2 = p.2.map id from (List.map_id p.2).symm]
    rw [List.map_map]
    refine List.map_congr_left ?_
    intro r hr
    obtain ⟨a, b, c⟩ := r
    have := hsa p hp _ hr
    simp only at this
    simp [this]
  rw [this]

/-- C9, witness: instantiated on the reachable store holding the
single route ("A", "B"). -/
theorem start_point_eq_first_station_witness :
    Reachable sAB ∧
    ((∀ rt ∈ sAB.route_tbl.getD [], ∀ st ∈ sAB.start_tbl.getD [],
       st.name_id = rt.name_id → st.start_point = rt.first_station) ∧
     (∀ p, select_all sAB = some p →
       ∀ r ∈ p.2, r.start_point = r.first_station) ∧
     (∀ x p, select_route sAB x = some p →
       ∀ r ∈ p.2, r.start_point = r.first_station) ∧
     (∀ p, select_all sAB = some p →
       display_routes (p.2.map
         (fun r => ⟨r.first_station, r.first_station, r.second_station⟩)) =
       display_routes p.2)) :=
  ⟨reachable_sAB, start_point_eq_first_station sAB reachable_sAB⟩

theorem dataLines_nil (k : Nat) : dataLines k [] = [] := rfl

theorem dataLines_cons (k : Nat) (r : RouteRecord) (rs : List RouteRecord) :
    dataLines k (r :: rs) =
      fmt3 (toString k) r.start_point r.second_station :: borderLine ::
        dataLines (k + 1) rs := rfl

theorem dataLines_length (rs : List RouteRecord) :
    ∀ k, (dataLines k rs).length = 2 * rs.length := by
  induction rs with
  | nil => intro k; rfl
  | cons r rest ih =>
    intro k
    rw [dataLines_cons]
    simp only [List.length_cons, ih (k + 1), List.length_cons]
    omega

theorem dataLines_getElem (rs : List RouteRecord) :
    ∀ (k i : Nat) (r : RouteRecord), rs[i]? = some r →
      (dataLines k rs)[2 * i]? =
        some (fmt3 (toString (k + i)) r.start_point r.second_station) ∧
      (dataLines k rs)[2 * i + 1]? = some borderLine := by
  induction rs with
  | nil => intro k i r hr; simp at hr
  | cons a rest ih =>
    intro k i r hr
    cases i with
    | zero =>
      simp only [List.getElem?_cons_zero, Option.some.injEq] at hr
      subst hr
      exact ⟨by simp [dataLines_cons], by simp [dataLines_cons]⟩
    | succ i =>
      rw [List.getElem?_cons_succ] at hr
      have h2 := ih (k + 1) i r hr
      rw [dataLines_cons]
      constructor
      · rw [show 2 * (i + 1) = 2 * i + 1 + 1 from by ring,
          List.getElem?_cons_succ, List.getElem?_cons_succ, h2.1,
          show k + 1 + i = k + (i + 1) from by omega]
      · rw [show 2 * (i + 1) + 1 = 2 * i + 1 + 1 + 1 from by ring,
          List.getElem?_cons_succ, List.getElem?_cons_succ]
        exact h2.2

/-- C5, counterexample: on a concrete non-empty input the printed
header row is the localized one, which differs from a header row
reading ("№", "Origin", "Destination") in the same format. -/
theorem display_routes_header_not_english :
    (display_routes [⟨"a", "a", "b"⟩])[1]? =
      some (fmt3 "№" "Место отправки" "Место прибытия") ∧
    fmt3 "№" "Место отправки" "Место прибытия" ≠
      fmt3 "№" "Origin" "Destination" :=
  ⟨rfl, by decide⟩

/-- C5 (amended: the header labels are the localized Russian strings
"Место отправки" / "Место прибытия", i.e. origin / destination, not
the English words).  For a non-empty record list `display_routes`
renders the bordered fixed-width table: a border, the header row, a
border, and for the record at 0-based position `i` a data row numbered
`i + 1` showing its `start_point` and `second_station` (not
`first_station`), each data row followed by a border. -/
theorem display_routes_table (rs : List RouteRecord) (h : rs ≠ []) :
    (display_routes rs).length = 3 + 2 * rs.length ∧
    (display_routes rs)[0]? = some borderLine ∧
    (display_routes rs)[1]? = some (fmt3 "№" "Место отправки" "Место прибытия") ∧
    (display_routes rs)[2]? = some borderLine ∧
    ∀ i r, rs[i]? = some r →
      (display_routes rs)[3 + 2 * i]? =
        some (fmt3 (toString (i + 1)) r.start_point r.second_station) ∧
      (display_routes rs)[4 + 2 * i]? = some borderLine := by
  have hd : display_routes rs =
      [borderLine, headerLine, borderLine] ++ dataLines 1 rs := by
    rw [display_routes, if_neg h]
  rw [hd]
  refine ⟨?_, by simp, by simp [headerLine], by simp, ?_⟩
  · simp only [List.length_append, List.length_cons, List.length_nil,
      dataLines_length rs 1]
  · intro i r hr
    have h2 := dataLines_getElem rs 1 i r hr
    have hlen : ([borderLine, headerLine, borderLine] : List String).length = 3 := rfl
    constructor
    · rw [List.getElem?_append_right (by rw [hlen]; omega), hlen,
        show 3 + 2 * i - 3 = 2 * i from by omega, h2.1,
        show 1 + i = i + 1 from by omega]
    · rw [List.getElem?_append_right (by rw [hlen]; omega), hlen,
        show 4 + 2 * i - 3 = 2 * i + 1 from by omega, h2.2]

/-- C5, witness: the amended table shape, instantiated on a one-record
list. -/
theorem display_routes_table_witness :
    ([(⟨"a", "a", "b"⟩ : RouteRecord)] ≠ []) ∧
    ((display_routes [⟨"a", "a", "b"⟩]).length = 3 + 2 * 1 ∧
     (display_routes [⟨"a", "a", "b"⟩])[0]? = some borderLine ∧
     (display_routes [⟨"a", "a", "b"⟩])[1]? =
       some (fmt3 "№" "Место отправки" "Место прибытия") ∧
     (display_routes [⟨"a", "a", "b"⟩])[2]? = some borderLine ∧
     ∀ i r, [(⟨"a", "a", "b"⟩ : RouteRecord)][i]? = some r →
       (display_routes [⟨"a", "a", "b"⟩])[3 + 2 * i]? =
         some (fmt3 (toString (i + 1)) r.start_point r.second_station) ∧
       (display_routes [⟨"a", "a", "b"⟩])[4 + 2 * i]? = some borderLine) :=
  ⟨by decide, by
    simpa using display_routes_table [⟨"a", "a", "b"⟩] (by decide)⟩

end Individual
